import Mathlib

/-!
Verification development for the OneTable `Table` class (src/Table.js).

The definitions below are a shallow embedding of the parts of `Table.js`
that the verified properties are about:

* the crypto subsystem (`Table.encrypt` / `Table.decrypt`, lines 629-666),
* the operation dispatcher (`Table.execute`, lines 439-485) together with
  `Table.batchGet` / `Table.batchWrite` (lines 490-520),
* the table-definition builder (`Table.createTable`, lines 200-294),
* the legacy marshalling helpers (`Table.marshallv2` / `Table.unmarshallv2`,
  lines 721-751), and
* the deep merge (`Table.mergeOne` / `Table.merge`, lines 753-791).

JavaScript values are modelled by the inductive type `JSVal`; exceptions by
`Except String`; the Node `crypto` library and the AWS client are external
collaborators and are modelled as explicit function parameters.
-/

namespace OneTable

/-- JavaScript runtime values, as far as `Table.js` inspects them.
`date`, `regexp`, `set`, `u8` (Uint8Array) and `bin` (Buffer) model the
object classes the code distinguishes with `instanceof` checks. -/
inductive JSVal where
  | undefined
  | null
  | bool (b : Bool)
  | num (n : Int)
  | str (s : String)
  | date (ms : Int)
  | regexp (source : String) (flags : String)
  | arr (items : List JSVal)
  | obj (fields : List (String × JSVal))
  | set (elems : List JSVal)
  | u8 (bytes : List Int)
  | bin (bytes : List Int)
deriving Repr

/-- First-match association lookup, the semantics of reading a key from a
JavaScript object literal (whose keys are unique). -/
def assocFind {α : Type} : List (String × α) → String → Option α
  | [], _ => none
  | (k, v) :: rest, key => if k = key then some v else assocFind rest key

/-- Replace the value stored under `key` (first occurrence, keeping its
position), or append the binding, as JavaScript property assignment does. -/
def setField : List (String × JSVal) → String → JSVal → List (String × JSVal)
  | [], key, x => [(key, x)]
  | (k, v) :: rest, key, x =>
    if k = key then (k, x) :: rest else (k, v) :: setField rest key x

/-- JavaScript truthiness of a value. -/
def jsTruthy : JSVal → Bool
  | .undefined => false
  | .null => false
  | .bool b => b
  | .num n => n != 0
  | .str s => s ≠ ""
  | _ => true

/-- `typeof v == 'object'` (true for `null` and every object class). -/
def typeofObject : JSVal → Bool
  | .null => true
  | .obj _ => true
  | .arr _ => true
  | .date _ => true
  | .regexp _ _ => true
  | .set _ => true
  | .u8 _ => true
  | .bin _ => true
  | _ => false

/-- `Array.isArray`. -/
def isArrVal : JSVal → Bool
  | .arr _ => true
  | _ => false

/-- Property read `v[k]` on a non-nullish value: objects by key, arrays and
strings by numeric index, `undefined` otherwise. -/
def getProp : JSVal → String → JSVal
  | .obj fs, k => (assocFind fs k).getD .undefined
  | .arr items, k =>
    match k.toNat? with
    | some i => items.getD i .undefined
    | none => .undefined
  | .str s, k =>
    match k.toNat? with
    | some i =>
      match s.data.get? i with
      | some c => .str (String.singleton c)
      | none => .undefined
    | none => .undefined
  | _, _ => .undefined

/-- Property read `v[k]`; reading from `null`/`undefined` throws. -/
def getPropE : JSVal → String → Except String JSVal
  | .null, _ => .error "TypeError: Cannot read properties of null"
  | .undefined, _ => .error "TypeError: Cannot read properties of undefined"
  | v, k => .ok (getProp v k)

/-- Pad an array with holes (read back as `undefined`) up to length `n`. -/
def padTo (items : List JSVal) (n : Nat) : List JSVal :=
  items ++ List.replicate (n - items.length) .undefined

/-- Property write `v[k] = x` in strict mode: updates objects and array
indices, throws on `null`/`undefined`/primitives.  Expando properties on
dates, regexps, sets and typed arrays are not representable here and are
dropped; `Table.js` never stores data that way. -/
def setPropE : JSVal → String → JSVal → Except String JSVal
  | .obj fs, k, x => .ok (.obj (setField fs k x))
  | .arr items, k, x =>
    match k.toNat? with
    | some i =>
      .ok (.arr (if i < items.length then items.set i x else padTo items i ++ [x]))
    | none => .ok (.arr items)
  | .null, _, _ => .error "TypeError: Cannot set properties of null"
  | .undefined, _, _ => .error "TypeError: Cannot set properties of undefined"
  | .str _, _, _ => .error "TypeError: Cannot assign to read only property"
  | .num _, _, _ => .error "TypeError: Cannot create property on number"
  | .bool _, _, _ => .error "TypeError: Cannot create property on boolean"
  | v, _, _ => .ok v

/-- `Object.entries(v)`: object fields in insertion order, arrays and strings
indexed, other boxed primitives/objects with no own enumerable properties
give `[]`, and `null`/`undefined` throw. -/
def entriesOfE : JSVal → Except String (List (String × JSVal))
  | .null => .error "TypeError: Cannot convert undefined or null to object"
  | .undefined => .error "TypeError: Cannot convert undefined or null to object"
  | .obj fs => .ok fs
  | .arr items => .ok (items.enum.map (fun p => (toString p.1, p.2)))
  | .str s => .ok (s.data.enum.map (fun p => (toString p.1, .str (String.singleton p.2))))
  | _ => .ok []

/-! ### Colon-delimited token fields (`text.split(':')`) -/

/-- `String.prototype.split(':')` over the character list. -/
def splitColon : List Char → List (List Char)
  | [] => [[]]
  | c :: rest =>
    if c = ':' then [] :: splitColon rest
    else
      match splitColon rest with
      | [] => [[c]]
      | f :: fs => (c :: f) :: fs

/-- A string that contains no `':'`, so it survives as a single split field. -/
def noColonStr (s : String) : Prop := ':' ∉ s.data

instance (s : String) : Decidable (noColonStr s) :=
  inferInstanceAs (Decidable (':' ∉ s.data))

/-! ### Hex encoding of the initialization vector -/

/-- Lowercase hex digit for a value below 16 (`Buffer.toString('hex')`). -/
def hexDigit (n : Nat) : Char :=
  if n < 10 then Char.ofNat (48 + n) else Char.ofNat (87 + n)

/-- Two-digit hex rendering of one byte. -/
def byteHex (b : Nat) : List Char := [hexDigit (b / 16 % 16), hexDigit (b % 16)]

/-- `buffer.toString('hex')` for a byte list. -/
def hexOfBytes (bs : List Nat) : String := ⟨bs.flatMap byteHex⟩

/-- Value of a single hex digit character, if any. -/
def hexVal (c : Char) : Option Nat :=
  if 48 ≤ c.toNat ∧ c.toNat ≤ 57 then some (c.toNat - 48)
  else if 97 ≤ c.toNat ∧ c.toNat ≤ 102 then some (c.toNat - 87)
  else if 65 ≤ c.toNat ∧ c.toNat ≤ 70 then some (c.toNat - 55)
  else none

/-- `Buffer.from(s, 'hex')`: consume hex-digit pairs, stopping at the first
invalid pair or odd trailing digit. -/
def bytesOfHexList : List Char → List Nat
  | c1 :: c2 :: rest =>
    match hexVal c1, hexVal c2 with
    | some h, some l => (16 * h + l) :: bytesOfHexList rest
    | _, _ => []
  | _ => []

/-- `Buffer.from(s, 'hex')` on a string. -/
def bytesOfHex (s : String) : List Nat := bytesOfHexList s.data

/-! ### Crypto subsystem (`Table.encrypt` / `Table.decrypt`)

The Node cipher primitives (`createCipheriv`, `createDecipheriv`,
`getAuthTag`, `setAuthTag`, `update`/`final`) are external library calls; we
model a cipher algorithm as an abstract triple of functions, and the
installed crypto profiles as an association list, exactly the shape
`initCrypto` builds (name, cipher identifier, derived secret). -/

/-- One installed crypto profile (`this.crypto[name]`). -/
structure CryptoProfile where
  name : String
  cipher : String
  secret : List Nat
deriving Repr, DecidableEq

/-- An abstract cipher implementation: `enc secret iv plaintext` is the
base64 ciphertext produced by `update`/`final`, `authTag` the base64 auth
tag read by `getAuthTag` after that encryption, and `dec secret iv tag data`
the decryption (which may fail, e.g. on an AEAD tag mismatch). -/
structure CipherAlg where
  enc : List Nat → List Nat → String → String
  authTag : List Nat → List Nat → String → String
  dec : List Nat → List Nat → String → String → Except String String

/-- The Node crypto library, resolving a cipher identifier. -/
def CipherEnv : Type := String → CipherAlg

/-- `haystack.indexOf(needle)` at successive offsets. -/
def indexOfAux (needle : List Char) : List Char → Nat → Option Nat
  | hay@(_ :: rest), i =>
    if needle.isPrefixOf hay then some i else indexOfAux needle rest (i + 1)
  | [], _ => none

/-- `crypto.cipher.indexOf('-gcm') > 0` (line 641): the marker must occur at
a positive position. -/
def hasGcmMode (cipher : String) : Bool :=
  match indexOfAux "-gcm".data cipher.data 0 with
  | some i => i > 0
  | none => false

/-- `Table.encrypt(text, name)` (lines 629-645).  The fresh random IV is an
explicit argument; `inCode`/`outCode` are fixed at their defaults and live
inside the abstract cipher. -/
def encrypt (env : CipherEnv) (crypto : Option (List (String × CryptoProfile)))
    (text : String) (name : String) (iv : List Nat) : Except String String :=
  if text = "" then .ok text
  else
    match crypto with
    | none => .error "dynamo: No database secret or cipher defined"
    | some profiles =>
      match assocFind profiles name with
      | none => .error ("dynamo: Database crypto not defined for " ++ name)
      | some prof =>
        let alg := env prof.cipher
        let crypted := alg.enc prof.secret iv text
        let tag := if hasGcmMode prof.cipher then alg.authTag prof.secret iv text else ""
        .ok (prof.name ++ ":" ++ tag ++ ":" ++ hexOfBytes iv ++ ":" ++ crypted)

/-- `Table.decrypt(text)` (lines 647-666): split on `':'`, return the input
unchanged if any of the four fields is missing or empty, otherwise require
the named profile and decrypt. -/
def decrypt (env : CipherEnv) (crypto : Option (List (String × CryptoProfile)))
    (text : String) : Except String String :=
  if text = "" then .ok text
  else
    let parts := splitColon text.data
    let name : String := ⟨parts.getD 0 []⟩
    let tag : String := ⟨parts.getD 1 []⟩
    let iv : String := ⟨parts.getD 2 []⟩
    let data : String := ⟨parts.getD 3 []⟩
    if data = "" ∨ iv = "" ∨ tag = "" ∨ name = "" then .ok text
    else
      match crypto with
      | none => .error "dynamo: No database secret or cipher defined"
      | some profiles =>
        match assocFind profiles name with
        | none => .error ("dynamo: Database crypto not defined for " ++ name)
        | some prof =>
          let ivBytes := bytesOfHex iv
          (env prof.cipher).dec prof.secret ivBytes tag data

/-! ### Operation dispatcher (`Table.execute`) -/

/-- An error raised by the AWS client, carrying its `code` string. -/
structure JsErr where
  code : String
  message : String
deriving Repr, DecidableEq

/-- What `execute` lets escape: the original client error re-raised
unchanged, or a fresh `new Error(...)` with only a message. -/
inductive ExecErr where
  | rethrown (err : JsErr)
  | raised (message : String)
deriving Repr, DecidableEq

/-- Severity channel of a log call on `this.log`. -/
inductive LogLevel where
  | trace
  | info
  | error
deriving Repr, DecidableEq

/-- The per-call `params` object as `execute`/`batchGet`/`batchWrite` read
it.  `throwFlag` is `params.throw` (checked with `=== false`), `logFlag` is
`params.log`, `infoFlag` is whether `params.info` is an object. -/
structure ExecParams where
  throwFlag : Option Bool := none
  logFlag : Option Bool := none
  stats : Bool := false
  capacity : Option String := none
  infoFlag : Bool := false
  parse : Bool := false
  consistent : Bool := false
deriving Repr, DecidableEq

/-- The `DynamoOps` table (lines 53-64). -/
def dynamoOps : String → Option String :=
  assocFind [("delete", "deleteItem"), ("get", "getItem"), ("find", "query"),
    ("put", "putItem"), ("scan", "scan"), ("update", "updateItem"),
    ("batchGet", "batchGet"), ("batchWrite", "batchWrite"),
    ("transactGet", "transactGet"), ("transactWrite", "transactWrite")]

/-- What `execute` stores into `params.info` (lines 479-483). -/
structure InfoRecord (π : Type) where
  operation : Option String
  args : JSVal
  properties : π
deriving Repr

/-- Observable outcome of one `execute` call: the returned value or escaped
error, the log calls in order, the command as sent to the client (after the
capacity/metrics augmentation), whether `metrics.add` ran, and the
`params.info` population if any. -/
structure ExecOut (π : Type) where
  outcome : Except ExecErr JSVal
  logs : List (LogLevel × String)
  sentCmd : JSVal
  metricsCalled : Bool
  infoOut : Option (InfoRecord π)
deriving Repr

/-- Property assignment on the command object (always an object literal in
`Table.js`); non-objects are passed through. -/
def objSet (v : JSVal) (k : String) (x : JSVal) : JSVal :=
  match v with
  | .obj fs => .obj (setField fs k x)
  | v => v

/-- `params.capacity || 'INDEXES'`. -/
def jsOrDefault (o : Option String) (d : String) : String :=
  match o with
  | some s => if s = "" then d else s
  | none => d

/-- `Table.execute(model, op, cmd, params, properties)` (lines 439-485).
The asynchronous client call is summarised by `clientOutcome`, the response
or error the client produced for the (augmented) command; `hasMetrics` is
whether `this.metrics` is attached. -/
def execute {π : Type} (hasMetrics : Bool) (model op : String) (cmd : JSVal)
    (params : ExecParams) (properties : π) (clientOutcome : Except JsErr JSVal) :
    ExecOut π :=
  let cmd := if params.stats || hasMetrics then
      objSet (objSet cmd "ReturnConsumedCapacity" (.str (jsOrDefault params.capacity "INDEXES")))
        "ReturnItemCollectionMetrics" (.str "SIZE")
    else cmd
  let firstLog : LogLevel × String :=
    ((if params.logFlag = some true then .info else .trace),
      "OneTable \"" ++ op ++ "\" \"" ++ model ++ "\"")
  match clientOutcome with
  | .ok result =>
    { outcome := .ok result
      logs := [firstLog]
      sentCmd := cmd
      metricsCalled := hasMetrics && jsTruthy result
      infoOut := if params.infoFlag then some ⟨dynamoOps op, cmd, properties⟩ else none }
  | .error err =>
    if params.throwFlag = some false then
      -- suppressed fault: `result = {}` and execution falls through normally
      { outcome := .ok (.obj [])
        logs := [firstLog]
        sentCmd := cmd
        metricsCalled := hasMetrics
        infoOut := if params.infoFlag then some ⟨dynamoOps op, cmd, properties⟩ else none }
    else if err.code = "ConditionalCheckFailedException" ∧ op = "put" then
      -- expected conflict: informational log, fresh model-scoped error
      { outcome := .error (.raised ("Conditional create failed for \"" ++ model))
        logs := [firstLog,
          (.info, "Conditional check failed \"" ++ op ++ "\" on \"" ++ model ++ "\"")]
        sentCmd := cmd
        metricsCalled := false
        infoOut := none }
    else
      -- transport/store fault: error log unless silenced, re-raise unchanged
      { outcome := .error (.rethrown err)
        logs := firstLog ::
          (if params.logFlag = some false then []
           else [(.error, "OneTable exception in \"" ++ op ++ "\" on \"" ++ model ++ "\"")])
        sentCmd := cmd
        metricsCalled := hasMetrics
        infoOut := none }

/-- Result of a batch entry point: the value returned to the caller (or the
escaped error), and the dispatcher interaction if one happened (`none` when
the empty batch short-circuited). -/
structure BatchOut (π : Type) where
  result : Except ExecErr JSVal
  call : Option (ExecOut π)
deriving Repr

/-- `Table.batchGet(batch, params)` (lines 490-513).  The batch object is
given as its field list; the model-resolution loop over parsed responses
uses the out-of-scope `Schema`/`Model` collaborators and is abstracted by
`parseFn`.  Note the dispatch passes `{}` as the options slot and `params`
in the properties slot. -/
def batchGet (hasMetrics : Bool) (parseFn : JSVal → JSVal)
    (batch : List (String × JSVal)) (params : ExecParams)
    (clientOutcome : Except JsErr JSVal) : BatchOut ExecParams :=
  if batch.length = 0 then ⟨.ok (.arr []), none⟩
  else
    let cmd := JSVal.obj (setField batch "ConsistentRead" (.bool params.consistent))
    let e := execute hasMetrics "_Generic" "batchGet" cmd {} params clientOutcome
    match e.outcome with
    | .error err => ⟨.error err, some e⟩
    | .ok result =>
      let response := getProp result "Responses"
      if params.parse && jsTruthy response then ⟨.ok (parseFn response), some e⟩
      else ⟨.ok result, some e⟩

/-- `Table.batchWrite(batch, params)` (lines 515-520): forwards `params` as
the dispatch options (properties defaulting to `{}`). -/
def batchWrite (hasMetrics : Bool) (batch : List (String × JSVal))
    (params : ExecParams) (clientOutcome : Except JsErr JSVal) : BatchOut JSVal :=
  if batch.length = 0 then ⟨.ok (.obj []), none⟩
  else
    let e := execute hasMetrics "_Generic" "batchWrite" (.obj batch) params
      (JSVal.obj []) clientOutcome
    ⟨e.outcome, some e⟩

/-! ### Index/table definition builder (`Table.createTable`) -/

/-- The `project` field of a schema index: absent, a string (the sentinel
`'keys'` or anything else), or an explicit attribute list. -/
inductive ProjectVal where
  | undefined
  | strv (s : String)
  | arrv (attrs : List String)
deriving Repr, DecidableEq

/-- JavaScript truthiness of a `project` value (`[]` is truthy, `''` is
falsy, absent is falsy). -/
def ProjectVal.truthy : ProjectVal → Bool
  | .undefined => false
  | .strv s => s ≠ ""
  | .arrv _ => true

/-- One schema index declaration as `createTable` reads it. -/
structure IndexDef where
  hash : Option String := none
  sort : Option String := none
  project : ProjectVal := .undefined
deriving Repr, DecidableEq

/-- One `KeySchema` element.  `attributeName` is an `Option` because the
code can write `undefined` there when neither the index nor the primary
declares a hash attribute. -/
structure KeyEl where
  attributeName : Option String
  keyType : String
deriving Repr, DecidableEq

/-- One local/global secondary index descriptor in the table definition. -/
structure SecIndexDef where
  indexName : String
  keySchema : List KeyEl
  projectionType : String
  nonKeyAttributes : Option (List String)
  provisionedThroughput : Option String := none
deriving Repr, DecidableEq

/-- The table definition sent to `service.createTable` (line 290).  The
local/global collections are `none` when empty, mirroring their deletion
from the payload; the provisioned throughput policy is opaque here. -/
structure TableDef where
  attributeDefinitions : List (String × String)
  keySchema : List KeyEl
  localSecondaryIndexes : Option (List SecIndexDef)
  globalSecondaryIndexes : Option (List SecIndexDef)
  tableName : String
  billingMode : String
  provisionedThroughput : Option String
deriving Repr, DecidableEq

/-- Mutable state of the index loop: the growing `def` pieces plus the
`attributes` deduplication map (as the list of names already declared). -/
structure BuildState where
  attrDefs : List (String × String) := []
  seen : List String := []
  keySchema : List KeyEl := []
  lsi : List SecIndexDef := []
  gsi : List SecIndexDef := []
deriving Repr, DecidableEq

/-- Truthiness of an optional string-valued field (`index.hash` etc.). -/
def jsTruthyStr : Option String → Bool
  | none => false
  | some s => s ≠ ""

/-- Lines 257-263 / 264-271: declare an attribute (type `'S'`) unless the
`attributes` map already has it, then mark it. -/
def addAttr (st : BuildState) (a : String) : BuildState :=
  if st.seen.contains a then st
  else { st with attrDefs := st.attrDefs ++ [(a, "S")], seen := st.seen ++ [a] }

/-- Lines 220-250: classify an index.  `none` means the primary index;
otherwise `(isLocal, projectionType, nonKeyAttributes)`.  Reading
`indexes.primary.hash` with no `primary` entry is the JavaScript
`TypeError`; a local index with a truthy `project` is the configuration
error. -/
def classifyIndex (primaryIdx : Option IndexDef) (name : String) (idx : IndexDef) :
    Except String (Option (Bool × String × Option (List String))) :=
  if name = "primary" then .ok none
  else
    let isLocalE : Except String Bool :=
      if idx.hash = none then .ok true
      else
        match primaryIdx with
        | none => .error "TypeError: Cannot read properties of undefined (reading hash)"
        | some p => .ok (idx.hash == p.hash)
    match isLocalE with
    | .error e => .error e
    | .ok isLocal =>
      if isLocal && idx.project.truthy then .error "Unwanted project for LSI"
      else
        let projType :=
          match idx.project with
          | .arrv _ => "INCLUDE"
          | .strv s => if s = "keys" then "KEYS_ONLY" else "ALL"
          | .undefined => "ALL"
        let nonKey :=
          match idx.project with
          | .arrv attrs => some attrs
          | _ => none
        .ok (some (isLocal, projType, nonKey))

/-- Line 254: `index.hash || indexes.primary.hash`, with the `TypeError`
when the primary entry is missing. -/
def resolveHashName (primaryIdx : Option IndexDef) (idx : IndexDef) :
    Except String (Option String) :=
  if jsTruthyStr idx.hash then .ok idx.hash
  else
    match primaryIdx with
    | none => .error "TypeError: Cannot read properties of undefined (reading hash)"
    | some p => .ok p.hash

/-- Lines 257-271: the attribute-definition updates of one index. -/
def updateAttrs (st : BuildState) (idx : IndexDef) : BuildState :=
  let st := if jsTruthyStr idx.hash then addAttr st (idx.hash.getD "") else st
  if jsTruthyStr idx.sort then addAttr st (idx.sort.getD "") else st

/-- Lines 253-276: the key-schema elements of one index. -/
def keyElems (hashName : Option String) (idx : IndexDef) : List KeyEl :=
  [⟨hashName, "HASH"⟩] ++ (if jsTruthyStr idx.sort then [⟨idx.sort, "RANGE"⟩] else [])

/-- Attach the key elements either to the primary key schema or to a new
secondary index descriptor in its collection (lines 221, 241-251). -/
def placeKeys (st : BuildState) (name : String)
    (cls : Option (Bool × String × Option (List String))) (keys : List KeyEl) :
    BuildState :=
  match cls with
  | none => { st with keySchema := st.keySchema ++ keys }
  | some (isLocal, projType, nonKey) =>
    let projDef : SecIndexDef := ⟨name, keys, projType, nonKey, none⟩
    if isLocal then { st with lsi := st.lsi ++ [projDef] }
    else { st with gsi := st.gsi ++ [projDef] }

/-- One iteration of the `for (let [name, index] of Object.entries(indexes))`
loop (lines 218-277), in source order: classification (with its errors)
first, then the key/attribute updates. -/
def processIndex (primaryIdx : Option IndexDef) (st : BuildState)
    (name : String) (idx : IndexDef) : Except String BuildState := do
  let cls ← classifyIndex primaryIdx name idx
  let hashName ← resolveHashName primaryIdx idx
  .ok (placeKeys (updateAttrs st idx) name cls (keyElems hashName idx))

/-- `Table.createTable` up to the client call (lines 200-287): the pure
construction of the table definition from the schema's indexes (given as
entries in insertion order). -/
def buildTableDef (tableName : String) (provisioned : Option String)
    (indexes : List (String × IndexDef)) : Except String TableDef := do
  let primaryIdx := assocFind indexes "primary"
  let st ← indexes.foldlM (fun st e => processIndex primaryIdx st e.1 e.2) {}
  let gsi := if provisioned.isSome
    then st.gsi.map (fun i => { i with provisionedThroughput := provisioned })
    else st.gsi
  .ok {
    attributeDefinitions := st.attrDefs
    keySchema := st.keySchema
    localSecondaryIndexes := if st.lsi.length = 0 then none else some st.lsi
    globalSecondaryIndexes := if gsi.length = 0 then none else some gsi
    tableName := tableName
    billingMode := if provisioned.isSome then "PROVISIONED" else "PAY_PER_REQUEST"
    provisionedThroughput := provisioned }

/-- The definitions `createTable` hands to `service.createTable` (lines
289-293): exactly one when building succeeded, none when it threw. -/
def createTableCalls (tableName : String) (provisioned : Option String)
    (indexes : List (String × IndexDef)) : List TableDef :=
  match buildTableDef tableName provisioned indexes with
  | .ok d => [d]
  | .error _ => []

/-- `a` is (truthily) referenced as the hash or sort attribute of some
index declaration. -/
def RefAttr (indexes : List (String × IndexDef)) (a : String) : Prop :=
  a ≠ "" ∧ ∃ e ∈ indexes, e.2.hash = some a ∨ e.2.sort = some a

/-- Invariant of the attribute-deduplication state along the index loop:
the declared attribute names mirror the `attributes` map, are
duplicate-free, and are exactly the names referenced by the indexes
processed so far. -/
def AttrInv (processed : List (String × IndexDef)) (st : BuildState) : Prop :=
  st.attrDefs.map Prod.fst = st.seen ∧ st.seen.Nodup
    ∧ ∀ a, a ∈ st.seen ↔ RefAttr processed a

/-! ### Legacy format compatibility (`Table.marshallv2` / `Table.unmarshallv2`) -/

/-- `value instanceof Set`. -/
def isJsSet : JSVal → Bool
  | .set _ => true
  | _ => false

/-- The element list of a `Set` (`Array.from(value)`). -/
def setElems : JSVal → List JSVal
  | .set elems => elems
  | _ => []

/-- Line 741: `value != null && typeof value == 'object' &&
value.wrapperName == 'Set' && Array.isArray(value.values)`.  Only plain
objects can carry those two properties in this model, matching the V2
DocumentClient's set wrapper shape. -/
def isV2SetWrapper : JSVal → Bool
  | .obj fs =>
    (match assocFind fs "wrapperName" with
     | some (.str s) => s = "Set"
     | _ => false) &&
    (match assocFind fs "values" with
     | some (.arr _) => true
     | _ => false)
  | _ => false

/-- `new Uint8Array(v)` for the values the Binary branch feeds it: copies a
buffer or typed array; an array of numbers is copied element-wise (non-
numbers coerce to 0 here); anything else gives an empty view. -/
def toUint8 : JSVal → JSVal
  | .bin bs => .u8 bs
  | .u8 bs => .u8 bs
  | .arr items => .u8 (items.map (fun v => match v with | .num n => n | _ => 0))
  | _ => .u8 []

/-- SameValueZero, the equality `Set` deduplicates with: value equality on
primitives; the objects reaching `new Set` here are freshly constructed, so
distinct entries are never identical references. -/
def sameValueZero (a b : JSVal) : Bool :=
  match a, b with
  | .undefined, .undefined => true
  | .null, .null => true
  | .bool x, .bool y => x == y
  | .num x, .num y => x == y
  | .str x, .str y => x == y
  | _, _ => false

/-- `new Set(list)`. -/
def jsNewSet (l : List JSVal) : JSVal :=
  .set (l.foldl (fun acc v => if acc.any (fun w => sameValueZero w v) then acc
    else acc ++ [v]) [])

/-- Lines 742-747: rebuild a native `Set` from a V2 wrapper, re-widening
Binary members to `Uint8Array`. -/
def unmarshallv2Val (v : JSVal) : JSVal :=
  match v with
  | .obj fs =>
    let lst := match assocFind fs "values" with
      | some (.arr items) => items
      | _ => []
    let isBinary : Bool := match assocFind fs "type" with
      | some (.str s) => s == "Binary"
      | _ => false
    let lst := if isBinary then lst.map toUint8 else lst
    jsNewSet lst
  | _ => v

/-- `Table.unmarshallv2(item)` (lines 739-751): for each entry of `item`,
replace a V2 set wrapper by a native `Set` in place. -/
def unmarshallv2 (item : JSVal) : Except String JSVal := do
  let entries ← entriesOfE item
  entries.foldlM (fun it kv =>
    if isV2SetWrapper kv.2 then setPropE it kv.1 (unmarshallv2Val kv.2) else .ok it) item

/-- `Table.marshallv2(item)` (lines 721-737): for each entry of `item`,
replace a native `Set` by `client.createSet(Array.from(value))`;
`createSet` belongs to the external V2 DocumentClient. -/
def marshallv2 (createSet : List JSVal → JSVal) (item : JSVal) : Except String JSVal := do
  let entries ← entriesOfE item
  entries.foldlM (fun it kv =>
    match kv.2 with
    | .set elems => setPropE it kv.1 (createSet elems)
    | _ => .ok it) item

/-! ### Deep merge (`Table.mergeOne` / `Table.merge`)

`mergeOne` increments its `recurse` counter on entry and throws
`'Recursive clone'` once the counter has passed 50, so the recursion (which
otherwise follows the structure of `src`) is fuel-bounded; that fuel is
exactly what makes the Lean translation terminate. -/

mutual

/-- `Table.mergeOne(recurse, dest, src)` (lines 753-784). -/
def mergeOne (recurse : Nat) (dest src : JSVal) : Except String JSVal :=
  if _h : recurse > 50 then .error "Recursive clone"
  else
    match entriesOfE src with
    | .error e => .error e
    | .ok entries => mergeEntries (recurse + 1) dest entries
termination_by (52 - recurse, 0)

/-- The `for (let [key, value] of Object.entries(src))` body of `mergeOne`,
one entry at a time (lines 757-782). -/
def mergeEntries (recurse : Nat) (dest : JSVal) :
    List (String × JSVal) → Except String JSVal
  | [] => .ok dest
  | (key, value) :: rest =>
    match value with
    | .undefined => mergeEntries recurse dest rest
    | .date ms =>
      match setPropE dest key (.date ms) with
      | .error e => .error e
      | .ok dest => mergeEntries recurse dest rest
    | .regexp source flags =>
      match setPropE dest key (.regexp source flags) with
      | .error e => .error e
      | .ok dest => mergeEntries recurse dest rest
    | .arr items =>
      match getPropE dest key with
      | .error e => .error e
      | .ok cur =>
        let baseE : Except String (JSVal × JSVal) :=
          if isArrVal cur then .ok (dest, cur)
          else
            match setPropE dest key (.arr []) with
            | .error e => .error e
            | .ok dest => .ok (dest, .arr [])
        match baseE with
        | .error e => .error e
        | .ok (dest, base) =>
          match mergeOne recurse base (.arr items) with
          | .error e => .error e
          | .ok merged =>
            match setPropE dest key merged with
            | .error e => .error e
            | .ok dest => mergeEntries recurse dest rest
    | value =>
      if typeofObject value && !(value matches .null) then
        match getPropE dest key with
        | .error e => .error e
        | .ok cur =>
          let baseE : Except String (JSVal × JSVal) :=
            if !typeofObject cur then
              match setPropE dest key (.obj []) with
              | .error e => .error e
              | .ok dest => .ok (dest, .obj [])
            else .ok (dest, cur)
          match baseE with
          | .error e => .error e
          | .ok (dest, base) =>
            match mergeOne recurse base value with
            | .error e => .error e
            | .ok merged =>
              match setPropE dest key merged with
              | .error e => .error e
              | .ok dest => mergeEntries recurse dest rest
      else
        match setPropE dest key value with
        | .error e => .error e
        | .ok dest => mergeEntries recurse dest rest
termination_by l => (52 - recurse, l.length + 1)

end

/-- `Table.merge(dest, ...sources)` (lines 786-791). -/
def merge (dest : JSVal) (sources : List JSVal) : Except String JSVal :=
  sources.foldlM (fun d s => mergeOne 0 d s) dest

/-! ### Concrete test environments

Small executable cipher environments and profile maps used to evaluate the
crypto subsystem on concrete inputs; a toy cipher stands in for the external
Node primitives. -/

/-- A trivially invertible non-AEAD cipher: ciphertext is the plaintext, no
auth tag, decryption returns the data field. -/
def algC : CipherAlg where
  enc := fun _ _ t => t
  authTag := fun _ _ _ => ""
  dec := fun _ _ _ d => .ok d

/-- Environment resolving every cipher identifier to `algC`. -/
def envC : CipherEnv := fun _ => algC

/-- A single installed non-AEAD profile named `primary`. -/
def profsC : List (String × CryptoProfile) :=
  [("primary", ⟨"primary", "aes-256-cbc", [1]⟩)]

/-- A trivially invertible AEAD-style cipher: constant auth tag `"T"`,
decryption succeeds only when handed that tag back. -/
def algG : CipherAlg where
  enc := fun _ _ t => t
  authTag := fun _ _ _ => "T"
  dec := fun _ _ tag d =>
    if tag = "T" then .ok d
    else .error "Unsupported state or unable to authenticate data"

/-- Environment resolving every cipher identifier to `algG`. -/
def envG : CipherEnv := fun _ => algG

/-- A single installed AEAD (`-gcm`) profile named `primary`. -/
def profsG : List (String × CryptoProfile) :=
  [("primary", ⟨"primary", "aes-256-gcm", [2]⟩)]

/-- An object nested `n` levels deep, for exercising the merge depth
guard. -/
def nestObj : Nat → JSVal
  | 0 => .str "x"
  | n + 1 => .obj [("a", nestObj n)]

/-! ## Theorems about the operation dispatcher -/

/-- C2.  A conditional-check failure on a `put` (with `params.throw` not
`false`) escapes as a fresh model-scoped error, not as the client's error,
is logged at informational severity, and nothing is logged at error
severity. -/
theorem execute_conditional_put_conflict {π : Type} (hasMetrics : Bool)
    (model : String) (cmd : JSVal) (params : ExecParams) (properties : π)
    (err : JsErr) (hcode : err.code = "ConditionalCheckFailedException")
    (hthrow : params.throwFlag ≠ some false) :
    (execute hasMetrics model "put" cmd params properties (.error err)).outcome
        = .error (.raised ("Conditional create failed for \"" ++ model))
      ∧ (LogLevel.info, "Conditional check failed \"put\" on \"" ++ model ++ "\"")
          ∈ (execute hasMetrics model "put" cmd params properties (.error err)).logs
      ∧ ∀ m, (LogLevel.error, m)
          ∉ (execute hasMetrics model "put" cmd params properties (.error err)).logs := by
  simp only [execute]
  rw [if_neg hthrow, if_pos ⟨hcode, trivial⟩]
  refine ⟨rfl, by simp, ?_⟩
  intro m hmem
  have hlv : LogLevel.error
        = (if params.logFlag = some true then LogLevel.info else LogLevel.trace)
      ∨ LogLevel.error = LogLevel.info := by
    rcases List.mem_cons.mp hmem with h | h
    · exact Or.inl (congrArg Prod.fst h)
    · rcases List.mem_cons.mp h with h2 | h2
      · exact Or.inr (congrArg Prod.fst h2)
      · exact absurd h2 (List.not_mem_nil _)
  rcases hlv with h | h
  · revert h
    split <;> simp
  · exact LogLevel.noConfusion h

/-- Witness for `execute_conditional_put_conflict` at a concrete call. -/
theorem execute_conditional_put_conflict_witness :
    (execute false "User" "put" (.obj []) {} (JSVal.obj [])
        (.error ⟨"ConditionalCheckFailedException", "The conditional request failed"⟩)).outcome
        = .error (.raised "Conditional create failed for \"User")
      ∧ (LogLevel.info, "Conditional check failed \"put\" on \"User\"")
          ∈ (execute false "User" "put" (.obj []) {} (JSVal.obj [])
              (.error ⟨"ConditionalCheckFailedException", "The conditional request failed"⟩)).logs := by
  have h := execute_conditional_put_conflict (π := JSVal) false "User" (.obj []) {}
    (JSVal.obj []) ⟨"ConditionalCheckFailedException", "The conditional request failed"⟩
    rfl (by simp)
  exact ⟨h.1, h.2.1⟩

/-- C3.  `params.throw === false` suppresses every client failure: `execute`
returns the empty object and no exception escapes, whatever the operation
and error (in particular a conditional-check failure on a `put`). -/
theorem execute_throw_false_suppresses {π : Type} (hasMetrics : Bool)
    (model op : String) (cmd : JSVal) (params : ExecParams) (properties : π)
    (err : JsErr) (hthrow : params.throwFlag = some false) :
    (execute hasMetrics model op cmd params properties (.error err)).outcome
      = .ok (.obj []) := by
  unfold execute
  simp [hthrow]

/-- Witness for `execute_throw_false_suppresses`, on the conditional-check
failure a `put` produces, showing the suppression takes precedence. -/
theorem execute_throw_false_suppresses_witness :
    (execute false "User" "put" (.obj []) { throwFlag := some false } (JSVal.obj [])
        (.error ⟨"ConditionalCheckFailedException", "The conditional request failed"⟩)).outcome
      = .ok (.obj []) :=
  execute_throw_false_suppresses (π := JSVal) false "User" "put" (.obj [])
    { throwFlag := some false } (JSVal.obj [])
    ⟨"ConditionalCheckFailedException", "The conditional request failed"⟩ rfl

/-- Writing one key leaves every other key's binding unchanged. -/
theorem assocFind_setField_ne (fs : List (String × JSVal)) (k k' : String)
    (x : JSVal) (h : k' ≠ k) :
    assocFind (setField fs k x) k' = assocFind fs k' := by
  induction fs with
  | nil =>
    simp only [setField, assocFind]
    rw [if_neg (fun hh => h hh.symm)]
  | cons kv rest ih =>
    obtain ⟨a, b⟩ := kv
    simp only [setField]
    by_cases hk : a = k
    · rw [if_pos hk]
      simp only [assocFind]
      have hne : ¬a = k' := fun hh => h (hh ▸ hk)
      rw [if_neg hne, if_neg hne]
    · rw [if_neg hk]
      simp only [assocFind]
      by_cases hq : a = k'
      · rw [if_pos hq, if_pos hq]
      · rw [if_neg hq, if_neg hq, ih]

/-- C9.  `batchGet` dispatches with an empty options object — the caller's
`params` ride only in the properties slot — so none of the per-call options
apply to the dispatch: the client failure is re-raised even under
`throw: false`, the trace/error log severities ignore `params.log`, the
sent command carries no consumed-capacity flag despite `params.stats`, and
`params.info` is never populated; `batchWrite`, which forwards `params` as
options, suppresses the same failure under `throw: false`. -/
theorem batchGet_ignores_call_params (parseFn : JSVal → JSVal)
    (batch : List (String × JSVal)) (params : ExecParams) (err : JsErr) (res : JSVal)
    (hne : batch ≠ [])
    (hrcc : assocFind batch "ReturnConsumedCapacity" = none) :
    (batchGet false parseFn batch params (.error err)).result = .error (.rethrown err)
      ∧ ((batchGet false parseFn batch params (.error err)).call.map
          (fun e => e.logs.map Prod.fst)) = some [LogLevel.trace, LogLevel.error]
      ∧ ((batchGet false parseFn batch params (.error err)).call.map
          (fun e => getProp e.sentCmd "ReturnConsumedCapacity")) = some JSVal.undefined
      ∧ ((batchGet false parseFn batch params (.ok res)).call.map
          (fun e => e.infoOut)) = some none
      ∧ (params.throwFlag = some false →
          (batchWrite false batch params (.error err)).result = .ok (.obj [])) := by
  have hlen : ¬batch.length = 0 := by
    simpa using fun hh => hne (List.length_eq_zero.mp hh)
  refine ⟨?_, ?_, ?_, ?_, ?_⟩
  · simp [batchGet, execute, hlen]
  · simp [batchGet, execute, hlen]
  · simp only [batchGet, execute, if_neg hlen]
    simp [getProp, assocFind_setField_ne batch "ConsistentRead"
      "ReturnConsumedCapacity" (.bool params.consistent) (by simp), hrcc]
  · simp only [batchGet, execute, if_neg hlen]
    split <;> simp
  · intro hthrow
    simp [batchWrite, execute, hlen, hthrow]

/-- Witness for `batchGet_ignores_call_params` at a concrete batch and a
fully-loaded `params` (`throw: false`, `log: true`, `stats`, `info`). -/
theorem batchGet_ignores_call_params_witness :
    (batchGet false id [("RequestItems", JSVal.obj [])]
        { throwFlag := some false, logFlag := some true, stats := true, infoFlag := true }
        (.error ⟨"ProvisionedThroughputExceededException", "slow down"⟩)).result
        = .error (.rethrown ⟨"ProvisionedThroughputExceededException", "slow down"⟩)
      ∧ (batchWrite false [("RequestItems", JSVal.obj [])]
          { throwFlag := some false, logFlag := some true, stats := true, infoFlag := true }
          (.error ⟨"ProvisionedThroughputExceededException", "slow down"⟩)).result
        = .ok (.obj []) := by
  have h := batchGet_ignores_call_params id [("RequestItems", JSVal.obj [])]
    { throwFlag := some false, logFlag := some true, stats := true, infoFlag := true }
    ⟨"ProvisionedThroughputExceededException", "slow down"⟩ (JSVal.obj [])
    (by simp) (by simp [assocFind])
  exact ⟨h.1, h.2.2.2.2 rfl⟩

/-! ## Theorems about the crypto subsystem -/

/-- Structure eta for strings: rebuilding a string from its characters is
the identity. -/
theorem string_mk_data (s : String) : String.mk s.data = s := rfl

/-- The character data of the separator literal. -/
theorem colon_data : (":" : String).data = [':'] := rfl

/-- A colon-free character list is a single split field. -/
theorem splitColon_no_colon (l : List Char) (h : ':' ∉ l) : splitColon l = [l] := by
  induction l with
  | nil => rfl
  | cons c rest ih =>
    have hc : ¬(c = ':') := fun hh => h (hh ▸ List.mem_cons_self _ _)
    have hr : ':' ∉ rest := fun hm => h (List.mem_cons_of_mem _ hm)
    simp only [splitColon]
    rw [if_neg hc, ih hr]

/-- Splitting a string beginning with a colon-free field peels that field
off. -/
theorem splitColon_append (l1 l2 : List Char) (h : ':' ∉ l1) :
    splitColon (l1 ++ ':' :: l2) = l1 :: splitColon l2 := by
  induction l1 with
  | nil => simp [splitColon]
  | cons c rest ih =>
    have hc : ¬(c = ':') := fun hh => h (hh ▸ List.mem_cons_self _ _)
    have hr : ':' ∉ rest := fun hm => h (List.mem_cons_of_mem _ hm)
    simp only [List.cons_append, splitColon, List.append_eq]
    rw [if_neg hc, ih hr]

/-- Hex digits invert their encoding. -/
theorem hexVal_hexDigit (n : Nat) (h : n < 16) : hexVal (hexDigit n) = some n := by
  interval_cases n <;> decide

/-- No hex digit is a colon. -/
theorem hexDigit_ne_colon (n : Nat) (h : n < 16) : hexDigit n ≠ ':' := by
  interval_cases n <;> decide

/-- The hex rendering of a byte contains no colon. -/
theorem byteHex_no_colon (b : Nat) : ':' ∉ byteHex b := by
  have h1 : b / 16 % 16 < 16 := Nat.mod_lt _ (by norm_num)
  have h2 : b % 16 < 16 := Nat.mod_lt _ (by norm_num)
  simp only [byteHex, List.mem_cons, List.not_mem_nil, or_false]
  push_neg
  exact ⟨fun hh => hexDigit_ne_colon _ h1 hh.symm, fun hh => hexDigit_ne_colon _ h2 hh.symm⟩

/-- A hex-encoded IV contains no colon. -/
theorem hexOfBytes_no_colon (bs : List Nat) : noColonStr (hexOfBytes bs) := by
  intro hmem
  rcases List.mem_flatMap.mp hmem with ⟨b, _, hb⟩
  exact byteHex_no_colon b hb

/-- A nonempty IV has a nonempty hex rendering. -/
theorem hexOfBytes_ne_empty (bs : List Nat) (h : bs ≠ []) : hexOfBytes bs ≠ "" := by
  cases bs with
  | nil => exact absurd rfl h
  | cons b rest =>
    intro hh
    have := congrArg String.data hh
    simp [hexOfBytes, byteHex] at this

/-- `Buffer.from(·, 'hex')` inverts `toString('hex')` on byte lists. -/
theorem bytesOfHex_hexOfBytes (bs : List Nat) (h : ∀ b ∈ bs, b < 256) :
    bytesOfHex (hexOfBytes bs) = bs := by
  show bytesOfHexList (bs.flatMap byteHex) = bs
  induction bs with
  | nil => rfl
  | cons b rest ih =>
    have hb : b < 256 := h b (List.mem_cons_self _ _)
    have hrest : ∀ x ∈ rest, x < 256 := fun x hx => h x (List.mem_cons_of_mem _ hx)
    have h1 : b / 16 % 16 < 16 := Nat.mod_lt _ (by norm_num)
    have h2 : b % 16 < 16 := Nat.mod_lt _ (by norm_num)
    simp only [List.flatMap_cons, byteHex, List.cons_append, List.nil_append]
    simp only [bytesOfHexList, hexVal_hexDigit _ h1, hexVal_hexDigit _ h2]
    rw [ih hrest]
    have hd : b / 16 < 16 := Nat.div_lt_of_lt_mul (by omega)
    rw [Nat.mod_eq_of_lt hd]
    congr 1
    omega

/-- A well-formed four-field token is nonempty. -/
theorem token_ne_empty (name tag iv data : String) :
    name ++ ":" ++ tag ++ ":" ++ iv ++ ":" ++ data ≠ "" := by
  intro hh
  have := congrArg String.data hh
  simp [String.data_append, colon_data] at this

/-- The character data of a four-field token. -/
theorem token_data (name tag iv data : String) :
    (name ++ ":" ++ tag ++ ":" ++ iv ++ ":" ++ data).data
      = name.data ++ ':' :: (tag.data ++ ':' :: (iv.data ++ ':' :: data.data)) := by
  simp [String.data_append, colon_data]

/-- Splitting a four-field token with colon-free fields recovers exactly the
four fields. -/
theorem splitColon_token (name tag iv data : String)
    (hn : noColonStr name) (ht : noColonStr tag) (hi : noColonStr iv)
    (hd : noColonStr data) :
    splitColon (name ++ ":" ++ tag ++ ":" ++ iv ++ ":" ++ data).data
      = [name.data, tag.data, iv.data, data.data] := by
  rw [token_data, splitColon_append _ _ hn, splitColon_append _ _ ht,
    splitColon_append _ _ hi, splitColon_no_colon _ hd]

/-- How `decrypt` behaves on a well-formed four-field token with nonempty
colon-free fields: it looks up the leading profile name and decrypts. -/
theorem decrypt_token_reduce (env : CipherEnv)
    (crypto : Option (List (String × CryptoProfile))) (name tag iv data : String)
    (hn : noColonStr name) (ht : noColonStr tag) (hi : noColonStr iv)
    (hd : noColonStr data)
    (hne : name ≠ "") (hte : tag ≠ "") (hie : iv ≠ "") (hde : data ≠ "") :
    decrypt env crypto (name ++ ":" ++ tag ++ ":" ++ iv ++ ":" ++ data)
      = match crypto with
        | none => .error "dynamo: No database secret or cipher defined"
        | some profiles =>
          match assocFind profiles name with
          | none => .error ("dynamo: Database crypto not defined for " ++ name)
          | some prof => (env prof.cipher).dec prof.secret (bytesOfHex iv) tag data := by
  simp only [decrypt]
  rw [if_neg (token_ne_empty name tag iv data)]
  rw [splitColon_token name tag iv data hn ht hi hd]
  simp only [List.getD_cons_zero, List.getD_cons_succ, string_mk_data]
  rw [if_neg (by simp [hne, hte, hie, hde])]

/-- `decrypt` returns a token whose tag field is empty unchanged — the
empty-tag check fires before any profile lookup. -/
theorem decrypt_empty_tag (env : CipherEnv)
    (crypto : Option (List (String × CryptoProfile))) (name iv data : String)
    (hn : noColonStr name) (hi : noColonStr iv) (hd : noColonStr data) :
    decrypt env crypto (name ++ ":" ++ "" ++ ":" ++ iv ++ ":" ++ data)
      = .ok (name ++ ":" ++ "" ++ ":" ++ iv ++ ":" ++ data) := by
  have hsplit := splitColon_token name "" iv data hn (by simp [noColonStr]) hi hd
  simp only [decrypt]
  rw [if_neg (token_ne_empty name "" iv data), hsplit]
  simp only [List.getD_cons_zero, List.getD_cons_succ, string_mk_data]
  rw [if_pos (Or.inr (Or.inr (Or.inl trivial)))]

/-- C1 (amended).  With an installed profile whose stored name matches its
key and an honest cipher, `decrypt ∘ encrypt` is the identity for AEAD
(`-gcm`) profiles; for a non-AEAD profile the serialized auth-tag field is
the empty string, so `decrypt` returns the whole token unchanged (the
round-trip fails whenever the plaintext is not itself such a token). -/
theorem crypto_roundtrip_amended (env : CipherEnv)
    (profiles : List (String × CryptoProfile)) (x name : String) (iv : List Nat)
    (prof : CryptoProfile)
    (hfind : assocFind profiles name = some prof) (hpname : prof.name = name)
    (hx : x ≠ "") (hname : name ≠ "") (hnc : noColonStr name)
    (hiv : iv ≠ []) (hivb : ∀ b ∈ iv, b < 256)
    (hcne : (env prof.cipher).enc prof.secret iv x ≠ "")
    (hcnc : noColonStr ((env prof.cipher).enc prof.secret iv x)) :
    (hasGcmMode prof.cipher = true →
      (env prof.cipher).authTag prof.secret iv x ≠ "" →
      noColonStr ((env prof.cipher).authTag prof.secret iv x) →
      (env prof.cipher).dec prof.secret iv ((env prof.cipher).authTag prof.secret iv x)
          ((env prof.cipher).enc prof.secret iv x) = .ok x →
      ∃ tok, encrypt env (some profiles) x name iv = .ok tok
        ∧ decrypt env (some profiles) tok = .ok x)
    ∧ (hasGcmMode prof.cipher = false →
      ∃ tok, encrypt env (some profiles) x name iv = .ok tok
        ∧ decrypt env (some profiles) tok = .ok tok
        ∧ (noColonStr x → tok ≠ x)) := by
  have henc : encrypt env (some profiles) x name iv
      = .ok (prof.name ++ ":"
          ++ (if hasGcmMode prof.cipher then (env prof.cipher).authTag prof.secret iv x
              else "")
          ++ ":" ++ hexOfBytes iv ++ ":" ++ (env prof.cipher).enc prof.secret iv x) := by
    simp only [encrypt, hfind]
    rw [if_neg hx]
  constructor
  · intro hg htag htagnc hdec
    refine ⟨_, henc, ?_⟩
    simp only [hg, if_true, hpname]
    rw [decrypt_token_reduce env (some profiles) name
      ((env prof.cipher).authTag prof.secret iv x) (hexOfBytes iv)
      ((env prof.cipher).enc prof.secret iv x) hnc htagnc (hexOfBytes_no_colon iv)
      hcnc hname htag (hexOfBytes_ne_empty iv hiv) hcne]
    simp only [hfind]
    rw [bytesOfHex_hexOfBytes iv hivb, hdec]
  · intro hg
    refine ⟨_, henc, ?_, ?_⟩
    · simp only [hg, Bool.false_eq_true, if_false, hpname]
      exact decrypt_empty_tag env (some profiles) name (hexOfBytes iv)
        ((env prof.cipher).enc prof.secret iv x) hnc (hexOfBytes_no_colon iv) hcnc
    · intro hxnc heq
      simp only [hg, Bool.false_eq_true, if_false, hpname] at heq
      have hcolon : ':' ∈ x.data := by
        have hdat := congrArg String.data heq
        rw [token_data] at hdat
        rw [← hdat]
        simp
      exact hxnc hcolon

/-- Witness for `crypto_roundtrip_amended`: a concrete AEAD profile
round-trips, and a concrete non-AEAD profile yields a token that `decrypt`
returns unchanged. -/
theorem crypto_roundtrip_amended_witness :
    (∃ tok, encrypt envG (some profsG) "hello" "primary" [0, 1] = .ok tok
        ∧ decrypt envG (some profsG) tok = .ok "hello")
    ∧ (∃ tok, encrypt envC (some profsC) "hello" "primary" [0, 1] = .ok tok
        ∧ decrypt envC (some profsC) tok = .ok tok) := by
  constructor
  · exact (crypto_roundtrip_amended envG profsG "hello" "primary" [0, 1]
      ⟨"primary", "aes-256-gcm", [2]⟩ (by decide) rfl (by decide) (by decide)
      (by decide) (by decide) (by decide) (by decide) (by decide)).1
      (by decide) (by decide) (by decide) rfl
  · exact ((crypto_roundtrip_amended envC profsC "hello" "primary" [0, 1]
      ⟨"primary", "aes-256-cbc", [1]⟩ (by decide) rfl (by decide) (by decide)
      (by decide) (by decide) (by decide) (by decide) (by decide)).2
      (by decide)).imp (fun _ h => ⟨h.1, h.2.1⟩)

/-- C1 is refuted as stated: for the installed non-AEAD profile `primary`
(an invertible cipher), `decrypt(encrypt("hello"))` is the token itself,
not `"hello"`. -/
theorem crypto_roundtrip_cex :
    encrypt envC (some profsC) "hello" "primary" [0] = .ok "primary::00:hello"
      ∧ decrypt envC (some profsC) "primary::00:hello" = .ok "primary::00:hello"
      ∧ ("primary::00:hello" : String) ≠ "hello" :=
  ⟨rfl, rfl, by decide⟩

/-- C5 (amended).  `decrypt` returns the input unchanged when the colon
split yields fewer than four fields or an empty field among the first four;
when the split yields more than four fields (the first four nonempty),
`decrypt` proceeds on the first four fields and ignores the rest, so the
input is not returned unchanged in general. -/
theorem decrypt_field_count_amended :
    (∀ (env : CipherEnv) (crypto : Option (List (String × CryptoProfile)))
        (text : String),
      text ≠ "" →
      ((⟨(splitColon text.data).getD 3 []⟩ : String) = ""
        ∨ (⟨(splitColon text.data).getD 2 []⟩ : String) = ""
        ∨ (⟨(splitColon text.data).getD 1 []⟩ : String) = ""
        ∨ (⟨(splitColon text.data).getD 0 []⟩ : String) = "") →
      decrypt env crypto text = .ok text)
    ∧ (∀ (env : CipherEnv) (crypto : Option (List (String × CryptoProfile)))
        (name tag iv data rest : String),
      noColonStr name → noColonStr tag → noColonStr iv → noColonStr data →
      name ≠ "" → tag ≠ "" → iv ≠ "" → data ≠ "" →
      decrypt env crypto (name ++ ":" ++ tag ++ ":" ++ iv ++ ":" ++ data ++ ":" ++ rest)
        = decrypt env crypto (name ++ ":" ++ tag ++ ":" ++ iv ++ ":" ++ data)) := by
  constructor
  · intro env crypto text htext h
    simp only [decrypt]
    rw [if_neg htext, if_pos h]
  · intro env crypto name tag iv data rest hn ht hi hd hne hte hie hde
    have hdata5 : (name ++ ":" ++ tag ++ ":" ++ iv ++ ":" ++ data ++ ":" ++ rest).data
        = name.data ++ ':' :: (tag.data ++ ':' :: (iv.data ++ ':'
            :: (data.data ++ ':' :: rest.data))) := by
      simp [String.data_append, colon_data]
    have hne5 : name ++ ":" ++ tag ++ ":" ++ iv ++ ":" ++ data ++ ":" ++ rest ≠ "" := by
      intro hh
      have := congrArg String.data hh
      rw [hdata5] at this
      simp at this
    have hsplit5 : splitColon
          (name ++ ":" ++ tag ++ ":" ++ iv ++ ":" ++ data ++ ":" ++ rest).data
        = name.data :: tag.data :: iv.data :: data.data :: splitColon rest.data := by
      rw [hdata5, splitColon_append _ _ hn, splitColon_append _ _ ht,
        splitColon_append _ _ hi, splitColon_append _ _ hd]
    rw [decrypt_token_reduce env crypto name tag iv data hn ht hi hd hne hte hie hde]
    simp only [decrypt]
    rw [if_neg hne5, hsplit5]
    simp only [List.getD_cons_zero, List.getD_cons_succ, string_mk_data]
    rw [if_neg (by simp [hne, hte, hie, hde])]

/-- Witness for `decrypt_field_count_amended`: a plain value passes through
unchanged, and a five-field token decrypts exactly as its first four fields
do. -/
theorem decrypt_field_count_amended_witness :
    decrypt envC (some profsC) "plainvalue" = .ok "plainvalue"
      ∧ decrypt envC (some profsC)
          ("primary" ++ ":" ++ "t" ++ ":" ++ "00" ++ ":" ++ "zz" ++ ":" ++ "extra")
        = decrypt envC (some profsC) ("primary" ++ ":" ++ "t" ++ ":" ++ "00" ++ ":" ++ "zz") := by
  constructor
  · exact decrypt_field_count_amended.1 envC (some profsC) "plainvalue"
      (by decide) (by decide)
  · exact decrypt_field_count_amended.2 envC (some profsC) "primary" "t" "00" "zz"
      "extra" (by decide) (by decide) (by decide) (by decide) (by decide) (by decide)
      (by decide) (by decide)

/-- C5 is refuted for the more-than-four-fields case: with profile `primary`
installed, a five-field token is decrypted (using its first four fields),
not returned unchanged. -/
theorem decrypt_extra_fields_cex :
    decrypt envC (some profsC) "primary:t:00:zz:extra" ≠ .ok "primary:t:00:zz:extra" := by
  intro h
  have heval : decrypt envC (some profsC) "primary:t:00:zz:extra" = .ok "zz" := rfl
  rw [heval] at h
  exact absurd (Except.ok.inj h) (by decide)

/-- C6 (amended).  A well-formed four-field token naming a profile that is
not installed makes `decrypt` raise the profile-not-defined error; it is
only the field-shape check, not the profile lookup, that falls back to
returning the input unchanged. -/
theorem decrypt_unknown_profile_error (env : CipherEnv)
    (profiles : List (String × CryptoProfile)) (name tag iv data : String)
    (hn : noColonStr name) (ht : noColonStr tag) (hi : noColonStr iv)
    (hd : noColonStr data)
    (hne : name ≠ "") (hte : tag ≠ "") (hie : iv ≠ "") (hde : data ≠ "")
    (hfind : assocFind profiles name = none) :
    decrypt env (some profiles) (name ++ ":" ++ tag ++ ":" ++ iv ++ ":" ++ data)
      = .error ("dynamo: Database crypto not defined for " ++ name) := by
  rw [decrypt_token_reduce env (some profiles) name tag iv data hn ht hi hd
    hne hte hie hde]
  simp [hfind]

/-- Witness for `decrypt_unknown_profile_error` at a concrete uninstalled
profile name. -/
theorem decrypt_unknown_profile_error_witness :
    decrypt envC (some profsC) ("legacy" ++ ":" ++ "t" ++ ":" ++ "00" ++ ":" ++ "zz")
      = .error ("dynamo: Database crypto not defined for " ++ "legacy") :=
  decrypt_unknown_profile_error envC profsC "legacy" "t" "00" "zz" (by decide)
    (by decide) (by decide) (by decide) (by decide) (by decide) (by decide)
    (by decide) (by decide)

/-- C6 is refuted as stated: a four-field token naming the uninstalled
profile `legacy` is not returned unchanged — `decrypt` throws. -/
theorem decrypt_unknown_profile_cex :
    decrypt envC (some profsC) "legacy:t:00:zz" ≠ .ok "legacy:t:00:zz" := by
  intro h
  have heval : decrypt envC (some profsC) "legacy:t:00:zz"
      = .error "dynamo: Database crypto not defined for legacy" := rfl
  rw [heval] at h
  exact Except.noConfusion h

/-! ## Theorems about the table-definition builder -/

/-- `Except` bind on an error short-circuits. -/
theorem exbind_error {α β : Type} (e : String) (g : α → Except String β) :
    (Except.error e >>= g) = Except.error e := rfl

/-- `Except` bind on a success applies the continuation. -/
theorem exbind_ok {α β : Type} (a : α) (g : α → Except String β) :
    (Except.ok a >>= g) = g a := rfl

/-- Processing a local secondary index that declares a truthy `project`
throws, whatever the accumulated state. -/
theorem processIndex_local_project_error (p : IndexDef) (st : BuildState)
    (name : String) (idx : IndexDef) (hname : name ≠ "primary")
    (hlocal : idx.hash = none ∨ idx.hash = p.hash)
    (hproj : idx.project.truthy = true) :
    processIndex (some p) st name idx = .error "Unwanted project for LSI" := by
  have hcls : classifyIndex (some p) name idx = .error "Unwanted project for LSI" := by
    simp only [classifyIndex]
    rw [if_neg hname]
    have hLocal : (if idx.hash = none then Except.ok true
        else match (some p : Option IndexDef) with
          | none =>
            Except.error "TypeError: Cannot read properties of undefined (reading hash)"
          | some p => Except.ok (idx.hash == p.hash)) = Except.ok (true : Bool) := by
      rcases hlocal with h | h
      · rw [if_pos h]
      · by_cases h0 : idx.hash = none
        · rw [if_pos h0]
        · rw [if_neg h0]
          simp [h]
    rw [hLocal]
    simp [hproj]
  simp only [processIndex, hcls, exbind_error]

/-- If some element always makes the step function fail, the monadic fold
fails. -/
theorem foldlM_except_error_of_mem {σ α : Type} (f : σ → α → Except String σ)
    (x : α) (msg : String) (hx : ∀ st, f st x = .error msg) :
    ∀ (l : List α) (st : σ), x ∈ l → ∃ m, List.foldlM f st l = .error m := by
  intro l
  induction l with
  | nil => intro st hmem; exact absurd hmem (List.not_mem_nil _)
  | cons y t ih =>
    intro st hmem
    rw [List.foldlM_cons]
    cases hfy : f st y with
    | error e => exact ⟨e, exbind_error e _⟩
    | ok st1 =>
      have hxt : x ∈ t := by
        rcases List.mem_cons.mp hmem with h | h
        · subst h
          rw [hx st] at hfy
          exact Except.noConfusion hfy
        · exact h
      rcases ih st1 hxt with ⟨m, hm⟩
      exact ⟨m, by rw [exbind_ok, hm]⟩

/-- C4.  A schema containing a secondary index classified as local (hash
unset or equal to the primary's hash) that declares a non-trivial
projection (an include-list or the `'keys'` sentinel) makes the definition
builder throw, so `service.createTable` is never invoked. -/
theorem createTable_local_project_raises (tn : String) (pt : Option String)
    (indexes : List (String × IndexDef)) (name : String) (idx p : IndexDef)
    (hmem : (name, idx) ∈ indexes) (hname : name ≠ "primary")
    (hp : assocFind indexes "primary" = some p)
    (hlocal : idx.hash = none ∨ idx.hash = p.hash)
    (hproj : (∃ l, idx.project = .arrv l) ∨ idx.project = .strv "keys") :
    (∃ msg, buildTableDef tn pt indexes = .error msg)
      ∧ createTableCalls tn pt indexes = [] := by
  have htruthy : idx.project.truthy = true := by
    rcases hproj with ⟨l, h⟩ | h <;> rw [h] <;> simp [ProjectVal.truthy]
  have herr : ∀ st, processIndex (assocFind indexes "primary") st name idx
      = .error "Unwanted project for LSI" := by
    rw [hp]
    intro st
    exact processIndex_local_project_error p st name idx hname hlocal htruthy
  obtain ⟨m, hm⟩ := foldlM_except_error_of_mem
    (fun st e => processIndex (assocFind indexes "primary") st e.1 e.2)
    (name, idx) "Unwanted project for LSI" (fun st => herr st) indexes {} hmem
  have hbuild : buildTableDef tn pt indexes = .error m := by
    simp only [buildTableDef]
    rw [hm, exbind_error]
  refine ⟨⟨m, hbuild⟩, ?_⟩
  simp [createTableCalls, hbuild]

/-- Witness for `createTable_local_project_raises` on a concrete schema with
a local index projecting an attribute list. -/
theorem createTable_local_project_raises_witness :
    (∃ msg, buildTableDef "TestTable" none
        [("primary", ⟨some "pk", some "sk", .undefined⟩),
         ("ls1", ⟨none, some "lsk", .arrv ["label"]⟩)] = .error msg)
      ∧ createTableCalls "TestTable" none
        [("primary", ⟨some "pk", some "sk", .undefined⟩),
         ("ls1", ⟨none, some "lsk", .arrv ["label"]⟩)] = [] :=
  createTable_local_project_raises "TestTable" none
    [("primary", ⟨some "pk", some "sk", .undefined⟩),
     ("ls1", ⟨none, some "lsk", .arrv ["label"]⟩)]
    "ls1" ⟨none, some "lsk", .arrv ["label"]⟩ ⟨some "pk", some "sk", .undefined⟩
    (by decide) (by decide) (by decide) (Or.inl rfl) (Or.inl ⟨["label"], rfl⟩)

/-- Membership in the `attributes` map after a conditionally-added
attribute name. -/
theorem mem_condAdd (st : BuildState) (o : Option String) (b : String) :
    b ∈ (if jsTruthyStr o then addAttr st (o.getD "") else st).seen
      ↔ b ∈ st.seen ∨ (b ≠ "" ∧ o = some b) := by
  cases o with
  | none => simp [jsTruthyStr]
  | some s =>
    by_cases hs : s = ""
    · subst hs
      rw [if_neg (by simp [jsTruthyStr])]
      constructor
      · exact Or.inl
      · rintro (h | ⟨hb, he⟩)
        · exact h
        · exact absurd (Option.some.inj he).symm hb
    · rw [if_pos (by simpa [jsTruthyStr] using hs)]
      simp only [Option.getD_some, addAttr]
      by_cases hc : st.seen.contains s
      · have hmem : s ∈ st.seen := by simpa using hc
        rw [if_pos hc]
        constructor
        · exact Or.inl
        · rintro (h | ⟨hb, he⟩)
          · exact h
          · exact (Option.some.inj he) ▸ hmem
      · rw [if_neg hc]
        simp only [List.mem_append, List.mem_singleton]
        constructor
        · rintro (h | h)
          · exact Or.inl h
          · exact Or.inr ⟨fun hb => hs (h.symm.trans hb), by rw [h]⟩
        · rintro (h | ⟨hb, he⟩)
          · exact Or.inl h
          · exact Or.inr (Option.some.inj he).symm

/-- `addAttr` keeps the attribute-definition names in lockstep with the
`attributes` map. -/
theorem addAttr_fst_eq (st : BuildState) (a : String)
    (h : st.attrDefs.map Prod.fst = st.seen) :
    (addAttr st a).attrDefs.map Prod.fst = (addAttr st a).seen := by
  unfold addAttr
  split
  · exact h
  · simp [h]

/-- `addAttr` never introduces a duplicate name. -/
theorem addAttr_nodup (st : BuildState) (a : String) (h : st.seen.Nodup) :
    (addAttr st a).seen.Nodup := by
  unfold addAttr
  split
  · exact h
  · next hc =>
    have ha : a ∉ st.seen := by simpa using hc
    exact List.Nodup.append h (List.nodup_singleton a)
      (fun x hx hmem => ha ((List.mem_singleton.mp hmem) ▸ hx))

/-- The updates of one index preserve the lockstep property. -/
theorem updateAttrs_fst_eq (st : BuildState) (idx : IndexDef)
    (h : st.attrDefs.map Prod.fst = st.seen) :
    (updateAttrs st idx).attrDefs.map Prod.fst = (updateAttrs st idx).seen := by
  unfold updateAttrs
  split
  · split
    · exact addAttr_fst_eq _ _ (addAttr_fst_eq _ _ h)
    · exact addAttr_fst_eq _ _ h
  · split
    · exact addAttr_fst_eq _ _ h
    · exact h

/-- The updates of one index preserve freedom from duplicates. -/
theorem updateAttrs_nodup (st : BuildState) (idx : IndexDef)
    (h : st.seen.Nodup) : (updateAttrs st idx).seen.Nodup := by
  unfold updateAttrs
  split
  · split
    · exact addAttr_nodup _ _ (addAttr_nodup _ _ h)
    · exact addAttr_nodup _ _ h
  · split
    · exact addAttr_nodup _ _ h
    · exact h

/-- Membership in the `attributes` map after one index's updates. -/
theorem mem_updateAttrs_seen (st : BuildState) (idx : IndexDef) (b : String) :
    b ∈ (updateAttrs st idx).seen
      ↔ b ∈ st.seen ∨ (b ≠ "" ∧ (idx.hash = some b ∨ idx.sort = some b)) := by
  unfold updateAttrs
  rw [mem_condAdd, mem_condAdd]
  tauto

/-- `placeKeys` never touches the attribute definitions. -/
theorem placeKeys_attrDefs (st : BuildState) (name : String)
    (cls : Option (Bool × String × Option (List String))) (keys : List KeyEl) :
    (placeKeys st name cls keys).attrDefs = st.attrDefs := by
  cases cls with
  | none => rfl
  | some t =>
    obtain ⟨l, pj, nk⟩ := t
    by_cases hl : l <;> simp [placeKeys, hl]

/-- `placeKeys` never touches the `attributes` map. -/
theorem placeKeys_seen (st : BuildState) (name : String)
    (cls : Option (Bool × String × Option (List String))) (keys : List KeyEl) :
    (placeKeys st name cls keys).seen = st.seen := by
  cases cls with
  | none => rfl
  | some t =>
    obtain ⟨l, pj, nk⟩ := t
    by_cases hl : l <;> simp [placeKeys, hl]

/-- A successful loop iteration changes the deduplication state exactly as
`updateAttrs` does. -/
theorem processIndex_ok_state (primaryIdx : Option IndexDef) (st : BuildState)
    (name : String) (idx : IndexDef) (st' : BuildState)
    (h : processIndex primaryIdx st name idx = .ok st') :
    st'.attrDefs = (updateAttrs st idx).attrDefs
      ∧ st'.seen = (updateAttrs st idx).seen := by
  simp only [processIndex] at h
  cases hc : classifyIndex primaryIdx name idx with
  | error e =>
    rw [hc, exbind_error] at h
    exact Except.noConfusion h
  | ok cls =>
    rw [hc, exbind_ok] at h
    cases hr : resolveHashName primaryIdx idx with
    | error e =>
      rw [hr, exbind_error] at h
      exact Except.noConfusion h
    | ok hn =>
      rw [hr, exbind_ok] at h
      have := Except.ok.inj h
      rw [← this, placeKeys_attrDefs, placeKeys_seen]
      exact ⟨rfl, rfl⟩

/-- One successful loop iteration extends the invariant by its index. -/
theorem processIndex_attrInv (primaryIdx : Option IndexDef)
    (processed : List (String × IndexDef)) (st st' : BuildState)
    (name : String) (idx : IndexDef)
    (hok : processIndex primaryIdx st name idx = .ok st')
    (h : AttrInv processed st) : AttrInv (processed ++ [(name, idx)]) st' := by
  obtain ⟨hfst, hnd, hmem⟩ := h
  obtain ⟨ha, hs⟩ := processIndex_ok_state primaryIdx st name idx st' hok
  refine ⟨?_, ?_, ?_⟩
  · rw [ha, hs]
    exact updateAttrs_fst_eq st idx hfst
  · rw [hs]
    exact updateAttrs_nodup st idx hnd
  · intro a
    rw [hs, mem_updateAttrs_seen, hmem a]
    simp only [RefAttr, List.mem_append, List.mem_singleton]
    constructor
    · rintro (⟨hne, e, he, hh⟩ | ⟨hne, hh⟩)
      · exact ⟨hne, e, Or.inl he, hh⟩
      · exact ⟨hne, (name, idx), Or.inr rfl, hh⟩
    · rintro ⟨hne, e, he | he, hh⟩
      · exact Or.inl ⟨hne, e, he, hh⟩
      · exact Or.inr ⟨hne, by rw [he] at hh; exact hh⟩

/-- The invariant carries through the whole index loop. -/
theorem foldlM_attrInv (primaryIdx : Option IndexDef) :
    ∀ (l pre : List (String × IndexDef)) (st st' : BuildState),
      AttrInv pre st →
      List.foldlM (fun st e => processIndex primaryIdx st e.1 e.2) st l = .ok st' →
      AttrInv (pre ++ l) st' := by
  intro l
  induction l with
  | nil =>
    intro pre st st' h hf
    simp only [List.foldlM_nil] at hf
    rw [List.append_nil]
    exact (Except.ok.inj hf) ▸ h
  | cons e t ih =>
    intro pre st st' h hf
    rw [List.foldlM_cons] at hf
    cases hp : processIndex primaryIdx st e.1 e.2 with
    | error m =>
      rw [hp, exbind_error] at hf
      exact Except.noConfusion hf
    | ok st1 =>
      rw [hp, exbind_ok] at hf
      have h1 := processIndex_attrInv primaryIdx pre st st1 e.1 e.2 hp h
      have h2 := ih (pre ++ [e]) st1 st' h1 hf
      simpa [List.append_assoc] using h2

/-- C7.  When the definition builder succeeds, every attribute name that
some index references as its hash or sort key occurs exactly once in
`AttributeDefinitions`, also when several indexes reference it. -/
theorem createTable_attr_dedup (tn : String) (pt : Option String)
    (indexes : List (String × IndexDef)) (td : TableDef)
    (hok : buildTableDef tn pt indexes = .ok td)
    (a : String) (ha : a ≠ "")
    (href : ∃ e ∈ indexes, e.2.hash = some a ∨ e.2.sort = some a) :
    (td.attributeDefinitions.map Prod.fst).count a = 1 := by
  simp only [buildTableDef] at hok
  cases hf : List.foldlM
      (fun st e => processIndex (assocFind indexes "primary") st e.1 e.2)
      ({} : BuildState) indexes with
  | error m =>
    rw [hf, exbind_error] at hok
    exact Except.noConfusion hok
  | ok st =>
    rw [hf, exbind_ok] at hok
    have hinv : AttrInv indexes st := by
      have h0 : AttrInv [] ({} : BuildState) := by
        refine ⟨rfl, List.nodup_nil, ?_⟩
        intro a2
        simp [RefAttr]
      simpa using foldlM_attrInv (assocFind indexes "primary") indexes [] {} st h0 hf
    obtain ⟨hfst, hnd, hmem⟩ := hinv
    have htd : td.attributeDefinitions = st.attrDefs := by
      rw [← Except.ok.inj hok]
    rw [htd, hfst]
    exact List.count_eq_one_of_mem hnd ((hmem a).mpr ⟨ha, href⟩)

/-- Witness for `createTable_attr_dedup`: `sk` is the sort key of both the
primary index and `gs1`, yet is declared once. -/
theorem createTable_attr_dedup_witness :
    ∃ td, buildTableDef "TestTable" none
        [("primary", ⟨some "pk", some "sk", ProjectVal.undefined⟩),
         ("gs1", ⟨some "gsiPk", some "sk", ProjectVal.strv "keys"⟩)] = .ok td
      ∧ (td.attributeDefinitions.map Prod.fst).count "sk" = 1 := by
  refine ⟨_, rfl, ?_⟩
  exact createTable_attr_dedup "TestTable" none
    [("primary", ⟨some "pk", some "sk", ProjectVal.undefined⟩),
     ("gs1", ⟨some "gsiPk", some "sk", ProjectVal.strv "keys"⟩)] _ rfl "sk"
    (by decide)
    ⟨("gs1", ⟨some "gsiPk", some "sk", ProjectVal.strv "keys"⟩), by decide, Or.inr rfl⟩

/-! ## Theorems about the format-compatibility layer -/

/-- Writing an object's first field in place. -/
theorem setField_cons_self (k : String) (v x : JSVal) (t : List (String × JSVal)) :
    setField ((k, v) :: t) k x = (k, x) :: t := by
  simp [setField]

/-- Writing a key that does not occur in a prefix leaves the prefix
untouched. -/
theorem setField_append_of_not_mem (l1 l2 : List (String × JSVal)) (k : String)
    (x : JSVal) (h : k ∉ l1.map Prod.fst) :
    setField (l1 ++ l2) k x = l1 ++ setField l2 k x := by
  induction l1 with
  | nil => rfl
  | cons kv t ih =>
    obtain ⟨a, b⟩ := kv
    have ha : ¬(a = k) := fun hh => h (by simp [hh])
    simp only [List.cons_append, setField, List.append_eq]
    rw [if_neg ha, ih (fun hm => h (by simp [hm]))]

/-- The entry loop common to `marshallv2` and `unmarshallv2`: folding the
in-place updates over a snapshot of the entries rewrites exactly the
matching fields, in place and in order. -/
theorem foldlM_setField_map (P : JSVal → Bool) (T : JSVal → JSVal) :
    ∀ (l2 l1 : List (String × JSVal)),
      (((l1 ++ l2).map Prod.fst).Nodup) →
      List.foldlM (fun it kv => if P kv.2 then setPropE it kv.1 (T kv.2) else .ok it)
        (JSVal.obj (l1 ++ l2)) l2
      = .ok (.obj (l1 ++ l2.map (fun kv => (kv.1, if P kv.2 then T kv.2 else kv.2)))) := by
  intro l2
  induction l2 with
  | nil =>
    intro l1 h
    simp only [List.foldlM_nil, List.map_nil, List.append_nil]
    rfl
  | cons kv t ih =>
    intro l1 h
    obtain ⟨k, v⟩ := kv
    have hknotin : k ∉ l1.map Prod.fst := by
      have hd := List.disjoint_of_nodup_append (by simpa using h)
      exact fun hk => hd hk (List.mem_cons_self _ _)
    rw [List.foldlM_cons]
    by_cases hp : P v
    · rw [if_pos hp]
      have hset : setField (l1 ++ (k, v) :: t) k (T v) = l1 ++ (k, T v) :: t := by
        rw [setField_append_of_not_mem _ _ _ _ hknotin, setField_cons_self]
      have hsp : setPropE (JSVal.obj (l1 ++ (k, v) :: t)) k (T v)
          = .ok (.obj (l1 ++ (k, T v) :: t)) := by
        show Except.ok (JSVal.obj (setField (l1 ++ (k, v) :: t) k (T v))) = _
        rw [hset]
      rw [hsp, exbind_ok]
      have hnd2 : (((l1 ++ [(k, T v)]) ++ t).map Prod.fst).Nodup := by
        simpa using h
      have := ih (l1 ++ [(k, T v)]) hnd2
      simp only [List.append_assoc, List.singleton_append] at this
      rw [this]
      simp [hp]
    · rw [if_neg hp, exbind_ok]
      have hnd2 : (((l1 ++ [(k, v)]) ++ t).map Prod.fst).Nodup := by
        simpa using h
      have := ih (l1 ++ [(k, v)]) hnd2
      simp only [List.append_assoc, List.singleton_append] at this
      rw [this]
      simp [hp]

/-- C10.  On an object (with unique keys, as JavaScript objects have),
`marshallv2` returns the argument object updated in place: exactly the
`Set`-instance fields are replaced by `client.createSet(...)`, every other
field (and the key order) is untouched; `unmarshallv2` likewise replaces
exactly the fields holding a V2 set wrapper (`wrapperName == 'Set'` with an
array `values`) by a rebuilt native `Set`, leaving all other fields
unchanged.  In-place mutation of the same reference appears here as the
result being the updated argument value itself. -/
theorem marshallv2_unmarshallv2_frame (createSet : List JSVal → JSVal)
    (fs : List (String × JSVal)) (hnd : (fs.map Prod.fst).Nodup) :
    marshallv2 createSet (.obj fs)
        = .ok (.obj (fs.map (fun kv =>
            (kv.1, if isJsSet kv.2 then createSet (setElems kv.2) else kv.2))))
      ∧ unmarshallv2 (.obj fs)
        = .ok (.obj (fs.map (fun kv =>
            (kv.1, if isV2SetWrapper kv.2 then unmarshallv2Val kv.2 else kv.2)))) := by
  constructor
  · have hfun : (fun (it : JSVal) (kv : String × JSVal) =>
        match kv.2 with
        | .set elems => setPropE it kv.1 (createSet elems)
        | _ => .ok it)
      = fun (it : JSVal) (kv : String × JSVal) =>
          if isJsSet kv.2 then setPropE it kv.1 (createSet (setElems kv.2))
          else .ok it := by
      funext it kv
      cases kv.2 <;> simp [isJsSet, setElems]
    simp only [marshallv2, entriesOfE, exbind_ok, hfun]
    have := foldlM_setField_map isJsSet (fun v => createSet (setElems v)) fs []
      (by simpa using hnd)
    simpa using this
  · simp only [unmarshallv2, entriesOfE, exbind_ok]
    have := foldlM_setField_map isV2SetWrapper unmarshallv2Val fs []
      (by simpa using hnd)
    simpa using this

/-- Witness for `marshallv2_unmarshallv2_frame` on concrete objects mixing
plain fields with a `Set` field / a V2 wrapper field. -/
theorem marshallv2_unmarshallv2_frame_witness :
    marshallv2 (fun l => .obj [("wrapperName", .str "Set"), ("values", .arr l)])
        (.obj [("a", .str "v"), ("c", .set [.num 1])])
      = .ok (.obj [("a", .str "v"),
          ("c", .obj [("wrapperName", .str "Set"), ("values", .arr [.num 1])])])
    ∧ unmarshallv2 (.obj [("a", .str "v"),
          ("b", .obj [("wrapperName", .str "Set"),
            ("values", .arr [.str "x", .str "x", .str "y"])])])
      = .ok (.obj [("a", .str "v"), ("b", .set [.str "x", .str "y"])]) := by
  constructor
  · exact (marshallv2_unmarshallv2_frame
      (fun l => .obj [("wrapperName", .str "Set"), ("values", .arr l)])
      [("a", .str "v"), ("c", .set [.num 1])] (by decide)).1.trans rfl
  · exact (marshallv2_unmarshallv2_frame (fun l => .set l)
      [("a", .str "v"), ("b", .obj [("wrapperName", .str "Set"),
        ("values", .arr [.str "x", .str "x", .str "y"])])] (by decide)).2.trans rfl

/-! ## Theorems about the deep merge -/

/-- Once the counter has passed 50, `mergeOne` throws immediately. -/
theorem mergeOne_guard (recurse : Nat) (dest src : JSVal) (h : recurse > 50) :
    mergeOne recurse dest src = .error "Recursive clone" := by
  unfold mergeOne
  rw [dif_pos h]

/-- Merging a single nested-object entry into `{}` fails exactly when the
nested merge fails. -/
theorem mergeEntries_nested_obj_error (r : Nat) (k : String)
    (fields : List (String × JSVal)) (e : String)
    (h : mergeOne r (JSVal.obj []) (JSVal.obj fields) = .error e) :
    mergeEntries r (JSVal.obj []) [(k, JSVal.obj fields)] = .error e := by
  unfold mergeEntries
  show (match mergeOne r (JSVal.obj []) (JSVal.obj fields) with
    | Except.error e => Except.error e
    | Except.ok merged =>
      match setPropE (JSVal.obj [(k, JSVal.obj [])]) k merged with
      | Except.error e => Except.error e
      | Except.ok dest => mergeEntries r dest []) = Except.error e
  rw [h]

/-- Merging an object nested deeply enough to exhaust the remaining fuel
raises `'Recursive clone'`. -/
theorem mergeOne_nest_error : ∀ (m r : Nat), 52 ≤ r + m →
    mergeOne r (JSVal.obj []) (nestObj m) = .error "Recursive clone" := by
  intro m
  induction m with
  | zero =>
    intro r h
    exact mergeOne_guard r _ _ (by omega)
  | succ m ih =>
    intro r h
    by_cases hr : r > 50
    · exact mergeOne_guard r _ _ hr
    · unfold mergeOne
      rw [dif_neg hr]
      show (match entriesOfE (nestObj (m + 1)) with
        | Except.error e => Except.error e
        | Except.ok entries => mergeEntries (r + 1) (JSVal.obj []) entries)
        = Except.error "Recursive clone"
      rw [show entriesOfE (nestObj (m + 1)) = .ok [("a", nestObj m)] from rfl]
      cases m with
      | zero => exact absurd h (by omega)
      | succ m2 =>
        rw [show nestObj (m2 + 1) = JSVal.obj [("a", nestObj m2)] from rfl]
        exact mergeEntries_nested_obj_error (r + 1) "a" [("a", nestObj m2)]
          "Recursive clone" (ih (r + 1) (by omega))

/-- C8.  The merge recursion is fuel-bounded: any call whose depth counter
has passed 50 raises `'Recursive clone'` instead of recursing, and `merge`
on a payload nested 52 or more objects deep always fails with that error,
at every excess depth.  (Being definable by well-founded recursion on the
fuel, the embedded `mergeOne` terminates on every representable input;
genuinely cyclic object graphs have no inductive representation, and on
them the same counter bounds the traversal.) -/
theorem mergeOne_depth_bounded :
    (∀ (recurse : Nat) (dest src : JSVal), recurse > 50 →
      mergeOne recurse dest src = .error "Recursive clone")
    ∧ ∀ n : Nat, merge (JSVal.obj []) [nestObj (52 + n)] = .error "Recursive clone" := by
  constructor
  · exact fun r d s h => mergeOne_guard r d s h
  · intro n
    unfold merge
    rw [List.foldlM_cons, mergeOne_nest_error (52 + n) 0 (by omega), exbind_error]

/-- Witness for `mergeOne_depth_bounded` at counter 51 and at nesting depth
exactly 52. -/
theorem mergeOne_depth_bounded_witness :
    mergeOne 51 (JSVal.obj []) (JSVal.str "x") = .error "Recursive clone"
      ∧ merge (JSVal.obj []) [nestObj (52 + 0)] = .error "Recursive clone" :=
  ⟨mergeOne_depth_bounded.1 51 _ _ (by decide), mergeOne_depth_bounded.2 0⟩

end OneTable
